import Mathlib

/-!
Verification of the AdGenie trigger detection and scheduling engine
against its specification, together with the frontend helpers that are
present in the repository (`Onboarding.tsx` time conversion,
`Dashboard.tsx` upcoming-post computation, `businessService.ts`
trigger update).

The backend Lambda bodies (`check_weather`, `check_time_triggers`) are
not part of the source tree; they are described by the specification and
the repository README.  Those components are therefore modelled from the
spec, as indicated on each definition.  The frontend definitions are
direct shallow embeddings of the TypeScript in `src/frontend`.

Time is modelled as whole minutes (backend) or milliseconds (frontend
dashboard) on an integer axis; an IANA timezone is modelled by its UTC
offset in minutes, which is all the spec's arithmetic uses.
-/

/-- Modelled from the spec: the closed set of trigger categories,
`{hot, cold, rain, weekendSpecials, paydaySales}` (§ GLOSSARY). -/
inductive TriggerCategory where
  | hot
  | cold
  | rain
  | weekendSpecials
  | paydaySales
deriving DecidableEq

/-- Modelled from the spec: the business's trigger preference flags,
weather `{hotSunny, rainy, coolPleasant}` and time-based
`{weekendSpecials, paydaySales}` (§3). -/
structure TriggerPreferences where
  hotSunny : Bool
  rainy : Bool
  coolPleasant : Bool
  weekendSpecials : Bool
  paydaySales : Bool
deriving DecidableEq

/-- Modelled from the spec: a pending-job record of `upcomingJobs`:
`{triggerCategory, detectedContext, scheduledTimeUTC, schedulingReference}`
(§3).  The detected context is the detection window's end instant. -/
structure PendingJob where
  triggerCategory : TriggerCategory
  detectedEndUTC : Int
  scheduledTimeUTC : Int
  schedulingReference : Nat
deriving DecidableEq

/-- Modelled from the spec: the business record as read and partially
updated by the engine (§3): timezone, local operating hours (minutes of
the local day), preference flags and the pending-job ledger. -/
structure Business where
  businessId : Nat
  tzOffsetMinutes : Int
  openTimeLocal : Nat
  closeTimeLocal : Nat
  prefs : TriggerPreferences
  upcomingJobs : List PendingJob
deriving DecidableEq

/-- Modelled from the spec: a candidate handed to the Schedule
Dispatcher: `(business, triggerCategory, scheduledTimeUTC, context)`
(§4.6); the context is the detection window's end instant. -/
structure Candidate where
  triggerCategory : TriggerCategory
  scheduledTimeUTC : Int
  detectedEndUTC : Int
deriving DecidableEq

/-- Modelled from the spec: the Trigger Preference Matcher's pure
mapping `hot → hotSunny, cold → coolPleasant, rain → rainy` (§4.4),
extended to the two time-based flags. -/
def prefFor (cat : TriggerCategory) (p : TriggerPreferences) : Bool :=
  match cat with
  | .hot => p.hotSunny
  | .cold => p.coolPleasant
  | .rain => p.rainy
  | .weekendSpecials => p.weekendSpecials
  | .paydaySales => p.paydaySales

/-- Modelled from the spec: the Timezone Normalizer's conversion of a
UTC instant (minutes) to the local wall-clock minute of day for a zone
with the given offset. -/
def localMinuteOfDay (offset t : Int) : Nat :=
  ((t + offset).emod 1440).toNat

/-- Modelled from the spec: the wrap-aware containment check of the
Business-Hours Filter (§4.3): local minute `l` lies in
`[openT, closeT)`, the interval being treated as two segments when
`closeT < openT` (overnight wrap). -/
def inHoursLocal (openT closeT l : Nat) : Bool :=
  if closeT < openT then
    decide (openT ≤ l) || decide (l < closeT)
  else
    decide (openT ≤ l) && decide (l < closeT)

/-- Modelled from the spec: the Business-Hours Filter applied to a UTC
instant for a concrete business (§4.3). -/
def inHoursB (b : Business) (t : Int) : Bool :=
  inHoursLocal b.openTimeLocal b.closeTimeLocal
    (localMinuteOfDay b.tzOffsetMinutes t)

/-- Modelled from the spec: the Dedup Ledger check (§4.6): an existing
`upcomingJobs` entry of the same triggerCategory whose
`scheduledTimeUTC` lies within the current detection horizon
`[now, now + horizon]`. -/
def isDuplicate (now horizon : Int) (jobs : List PendingJob)
    (c : Candidate) : Bool :=
  jobs.any fun e =>
    decide (e.triggerCategory = c.triggerCategory) &&
    decide (now ≤ e.scheduledTimeUTC) &&
    decide (e.scheduledTimeUTC ≤ now + horizon)

/-- Modelled from the spec: the entry appended to `upcomingJobs` for a
dispatched candidate, carrying the scheduler's reference (§4.6). -/
def mkPendingJob (c : Candidate) (ref : Nat) : PendingJob :=
  { triggerCategory := c.triggerCategory
    detectedEndUTC := c.detectedEndUTC
    scheduledTimeUTC := c.scheduledTimeUTC
    schedulingReference := ref }

/-- Modelled from the spec: the Schedule Dispatcher (§4.6).  Given a
candidate, first consult the Dedup Ledger; on a duplicate do nothing.
Otherwise ask the external Job Scheduling Service (modelled as a
function returning `some reference` on success and `none` on failure);
on success append the new entry, on failure leave the record unchanged. -/
def dispatch (sched : Candidate → Option Nat) (now horizon : Int)
    (b : Business) (c : Candidate) : Business :=
  if isDuplicate now horizon b.upcomingJobs c then b
  else
    match sched c with
    | none => b
    | some ref =>
        { b with upcomingJobs := b.upcomingJobs ++ [mkPendingJob c ref] }

/-- Modelled from the spec: one evaluation cycle of the dispatcher over
the cycle's list of candidates (§2 control flow: … → dedup → dispatch),
processed sequentially per business. -/
def runCycle (sched : Candidate → Option Nat) (now horizon : Int)
    (cands : List Candidate) (b : Business) : Business :=
  cands.foldl (dispatch sched now horizon) b

/-- Number of pending jobs of a given category in a ledger. -/
def countCat (cat : TriggerCategory) (jobs : List PendingJob) : Nat :=
  (jobs.filter fun e => decide (e.triggerCategory = cat)).length

/-- Modelled from the spec: the Time-Based Rule Evaluator's target
computation (§4.5): 10:00 local time on the current local date, rolled
forward one local calendar day when that instant, expressed in UTC, has
already elapsed at the moment of evaluation.  Times are minutes; the
local calendar day is the floor of local time over 1440. -/
def computeTimeTarget (now offset : Int) : Int :=
  let localDay := (now + offset) / 1440
  let targetUTC := localDay * 1440 + 600 - offset
  if targetUTC < now then targetUTC + 1440 else targetUTC

/-- Modelled from the spec: an hourly forecast point: UTC timestamp
(minutes), temperature and precipitation amount (§3). -/
structure ForecastPoint where
  timeUTC : Int
  temp : ℚ
  precip : ℚ
deriving DecidableEq

/-- Modelled from the spec: the Forecast Window Scanner's per-point
classification (§4.2): hot when the temperature exceeds `μ + 1.5σ`,
cold when it is below `μ - 1.5σ`, rain when precipitation exceeds the
fixed `0.2` threshold.  Time-based categories never match a forecast
point. -/
def wpred (cat : TriggerCategory) (μ σ : ℚ) (p : ForecastPoint) : Bool :=
  match cat with
  | .hot => decide (μ + 1.5 * σ < p.temp)
  | .cold => decide (p.temp < μ - 1.5 * σ)
  | .rain => decide ((0.2 : ℚ) < p.precip)
  | .weekendSpecials => false
  | .paydaySales => false

/-- A window of `k` consecutive points starting at position `i`
qualifies: it fits inside the forecast and every one of its points
satisfies the classification predicate. -/
def qualifiesWindow (pred : ForecastPoint → Bool) (k : Nat)
    (pts : List ForecastPoint) (i : Nat) : Prop :=
  i + k ≤ pts.length ∧ ∀ p ∈ (pts.drop i).take k, pred p = true

instance (pred : ForecastPoint → Bool) (k : Nat)
    (pts : List ForecastPoint) (i : Nat) :
    Decidable (qualifiesWindow pred k pts i) := by
  unfold qualifiesWindow; infer_instance

/-- Modelled from the spec: the Forecast Window Scanner's first-fit
search (§4.2): slide a `k`-point window over the ordered forecast and
return the start position of the earliest window all of whose points
satisfy the predicate, or `none`. -/
def findFirstWindow (pred : ForecastPoint → Bool) (k : Nat) :
    List ForecastPoint → Option Nat
  | [] => if k = 0 then some 0 else none
  | p :: rest =>
      if decide (k ≤ (p :: rest).length) && ((p :: rest).take k).all pred
      then some 0
      else (findFirstWindow pred k rest).map (· + 1)

/-- Modelled from the spec: the weather path of one evaluation cycle for
a single business (§2): for each weather category, scan for the earliest
qualifying window, keep it only when both its start and its end pass the
Business-Hours Filter, then only when the matching preference flag is
enabled, producing the candidates handed to the dispatcher.  The
candidate's `scheduledTimeUTC` is the window's start instant. -/
def weatherCandidates (μ σ : ℚ) (k : Nat) (pts : List ForecastPoint)
    (b : Business) : List Candidate :=
  [TriggerCategory.hot, TriggerCategory.cold, TriggerCategory.rain].filterMap
    fun cat =>
      match findFirstWindow (wpred cat μ σ) k pts with
      | none => none
      | some i =>
          let w := (pts.drop i).take k
          match w.head?, w.getLast? with
          | some p0, some p1 =>
              if inHoursB b p0.timeUTC && inHoursB b p1.timeUTC then
                if prefFor cat b.prefs then
                  some { triggerCategory := cat
                         scheduledTimeUTC := p0.timeUTC
                         detectedEndUTC := p1.timeUTC }
                else none
              else none
          | _, _ => none

/-- Modelled from the spec: the full weather path followed by the
dispatcher for one business in one cycle (fetch → detect → filter →
match preference → dedup → dispatch, §2). -/
def runWeatherCycle (sched : Candidate → Option Nat) (now horizon : Int)
    (μ σ : ℚ) (k : Nat) (pts : List ForecastPoint) (b : Business) :
    Business :=
  runCycle sched now horizon (weatherCandidates μ σ k pts b) b

/-- Arithmetic mean of a list of rational samples. -/
def listMean (l : List ℚ) : ℚ :=
  l.sum / (l.length : ℚ)

/-- Modelled from the spec: the Baseline Calculator (§4.1): on an empty
sample list it signals insufficient data (`none`); otherwise it returns
`(μ, σ)` with `μ` the mean and `σ = max(populationStdDev(samples), 0.5)`.
The population standard deviation involves a real square root, which has
no exact rational representative, so the external routine computing it
is abstracted as the parameter `pstdev`; the spec's flooring formula is
applied to its result. -/
def computeBaseline (pstdev : List ℚ → ℚ) (samples : List ℚ) :
    Option (ℚ × ℚ) :=
  if samples.isEmpty then none
  else some (listMean samples, max (pstdev samples) (0.5 : ℚ))

/-! Frontend: `Onboarding.tsx` 12h/24h time conversion.  Strings are
embedded as lists of characters; the regular-expression matches of the
source are embedded as explicit parsers with the same accepted shapes. -/

/-- `\d` of the source regexes: an ASCII digit. -/
def isDigitChar (c : Char) : Bool :=
  decide ('0' ≤ c) && decide (c ≤ '9')

/-- Numeric value of an ASCII digit, as in `parseInt`. -/
def digitVal (c : Char) : Nat := c.toNat - 48

/-- The ASCII digit for a value below 10. -/
def digitChar (n : Nat) : Char := Char.ofNat (48 + n)

/-- `parseInt(_, 10)` on a run of ASCII digits. -/
def digitsToNat (l : List Char) : Nat :=
  l.foldl (fun n c => 10 * n + digitVal c) 0

/-- Digit production for `natChars`, structurally recursive on a fuel
bound (the fuel never runs out for `fuel > log10 n`). -/
def natCharsGo : Nat → Nat → List Char
  | 0, _ => []
  | fuel + 1, n =>
      if n < 10 then [digitChar n]
      else natCharsGo fuel (n / 10) ++ [digitChar (n % 10)]

/-- `Number.prototype.toString` for naturals: decimal digit list. -/
def natChars (n : Nat) : List Char :=
  natCharsGo (n + 1) n

/-- `padStart(2, '0')` applied to a rendered natural. -/
def pad2 (n : Nat) : List Char :=
  if (natChars n).length = 1 then '0' :: natChars n else natChars n

/-- `String.prototype.trim` restricted to spaces. -/
def trimSpaces (l : List Char) : List Char :=
  ((l.dropWhile (· = ' ')).reverse.dropWhile (· = ' ')).reverse

/-- The match of `Onboarding.tsx`'s regex
`^(\d{1,2}):(\d{1,2})\s*(AM|PM)$` (case-insensitive): hour digits,
minute digits, and whether the period is PM. -/
def parse12Hour (l : List Char) : Option (Nat × Nat × Bool) :=
  let hd := l.takeWhile isDigitChar
  let r1 := l.dropWhile isDigitChar
  if hd.length = 0 || 2 < hd.length then none
  else
    match r1 with
    | ':' :: r2 =>
        let md := r2.takeWhile isDigitChar
        let r3 := r2.dropWhile isDigitChar
        if md.length = 0 || 2 < md.length then none
        else
          match r3.dropWhile (· = ' ') with
          | [a, m] =>
              if (a = 'A' || a = 'a') && (m = 'M' || m = 'm') then
                some (digitsToNat hd, digitsToNat md, false)
              else if (a = 'P' || a = 'p') && (m = 'M' || m = 'm') then
                some (digitsToNat hd, digitsToNat md, true)
              else none
          | _ => none
    | _ => none

/-- `Onboarding.tsx` `to24Hour`: convert `"h:mm AM/PM"` to `"HH:mm"`;
inputs that do not match the regex are returned unchanged.  The hour is
moved to the 24-hour clock (`PM` adds 12 except at 12, `12 AM` becomes
0) and both fields are zero-padded to two digits. -/
def to24Hour (s : List Char) : List Char :=
  match parse12Hour (trimSpaces s) with
  | none => s
  | some (h, m, isPM) =>
      let h1 := if isPM && decide (h ≠ 12) then h + 12 else h
      let h2 := if !isPM && decide (h1 = 12) then 0 else h1
      pad2 h2 ++ [':'] ++ pad2 m

/-- `Onboarding.tsx` `toDisplay`: convert `"HH:mm"` (regex
`^(\d{2}):(\d{2})$`) to `"h:mm AM/PM"`; non-matching inputs are
returned unchanged.  The minute group is passed through verbatim, the
hour becomes `12` when `hour % 12 == 0` and `hour % 12` otherwise, and
the period is `PM` exactly when `hour >= 12`. -/
def toDisplay (s : List Char) : List Char :=
  match s with
  | [h1, h2, c, m1, m2] =>
      if isDigitChar h1 && isDigitChar h2 && decide (c = ':') &&
          isDigitChar m1 && isDigitChar m2 then
        let hour := 10 * digitVal h1 + digitVal h2
        let hour12 := if hour % 12 = 0 then 12 else hour % 12
        natChars hour12 ++ [':'] ++ [m1, m2] ++ [' '] ++
          (if 12 ≤ hour then ['P', 'M'] else ['A', 'M'])
      else s
  | _ => s

/-- A well-formed `"HH:mm"` 24-hour string for hour `h` and minute `m`. -/
def render24 (h m : Nat) : List Char :=
  pad2 h ++ [':'] ++ pad2 m

/-! Frontend: `Dashboard.tsx` upcoming-posts effect.  An
`upcomingPosts` entry's `scheduledTime` is embedded as the instant (in
milliseconds) that `parseISO` yields, `none` standing for a missing or
unparsable field (`parseISO` then yields an invalid date, which fails
the `ts > now` comparison exactly like a missing field). -/

structure UpcomingPost where
  scheduledTime : Option Int
  triggerType : String
deriving DecidableEq

/-- The filter of the effect: the entry has a `scheduledTime` and it
parses to an instant strictly after `now`. -/
def isFuturePost (now : Int) (p : UpcomingPost) : Bool :=
  match p.scheduledTime with
  | none => false
  | some t => decide (now < t)

/-- The sort key `parseISO(p.scheduledTime).getTime()`. -/
def postKey (p : UpcomingPost) : Int :=
  p.scheduledTime.getD 0

/-- `futurePosts` of `Dashboard.tsx`: filter to strictly-future entries,
then sort ascending by scheduled time (JavaScript `sort` is stable;
stable merge sort embeds it). -/
def futurePosts (now : Int) (posts : List UpcomingPost) :
    List UpcomingPost :=
  (posts.filter (isFuturePost now)).mergeSort
    fun a b => decide (postKey a ≤ postKey b)

/-- The display list: `futurePosts.slice(0, 3)`.  The per-item cosmetic
decoration (subtitle text, icon, colors) keeps every field of the item
and affects neither selection nor order, so the display list is embedded
as the selected items themselves. -/
def upcomingDisplay (now : Int) (posts : List UpcomingPost) :
    List UpcomingPost :=
  (futurePosts now posts).take 3

/-- The "Next Post" delta: `"--"` when no future entry exists, otherwise
from the earliest future entry: whole minutes when under 60, else whole
hours (`differenceInMinutes` / `differenceInHours` truncate; the
difference here is positive, so integer division embeds them). -/
def nextPostDelta (now : Int) (posts : List UpcomingPost) : String :=
  match futurePosts now posts with
  | [] => "--"
  | p :: _ =>
      let d := postKey p - now
      let mins := d / 60000
      if mins < 60 then toString mins ++ "m"
      else toString (d / 3600000) ++ "h"

/-! Frontend: `businessService.ts` `updateTriggers` and the stored
business profile it mutates.  The `localStorage` slot holding the
serialized profile is embedded as an `Option BusinessData` state passed
in and returned. -/

structure InstagramConn where
  connected : Bool
  tokenID : Option String
  lastConnected : Option String
  username : Option String
deriving DecidableEq

structure SocialMediaInfo where
  instagram : InstagramConn
deriving DecidableEq

structure WeatherTriggers where
  hotSunny : Bool
  rainy : Bool
  coolPleasant : Bool
deriving DecidableEq

structure TimeBasedTriggers where
  mondayCoffee : Bool
  paydaySales : Bool
  weekendSpecials : Bool
deriving DecidableEq

structure HolidayTriggers where
  localFestivals : Bool
  internationalHolidays : Bool
deriving DecidableEq

structure ManualTriggers where
  boostNow : Bool
deriving DecidableEq

/-- The `triggers` object of the frontend `BusinessData` interface. -/
structure Triggers where
  weather : WeatherTriggers
  timeBased : TimeBasedTriggers
  holidays : HolidayTriggers
  manual : ManualTriggers
deriving DecidableEq

/-- The `BusinessData` interface of `businessService.ts`; optional
fields are `Option`s. -/
structure BusinessData where
  businessName : String
  location : String
  businessType : String
  brandVoice : String
  peakTime : String
  products : String
  triggers : Option Triggers
  socialMedia : Option SocialMediaInfo
  userId : Option String
  businessID : Option String
  createdAt : Option String
deriving DecidableEq

/-- The `BusinessResponse` interface of `businessService.ts`. -/
structure BusinessResponse where
  success : Bool
  data : Option BusinessData
  error : Option String
deriving DecidableEq

/-- The not-found response of `updateTriggers`. -/
def triggerUpdateFailure : BusinessResponse :=
  { success := false
    data := none
    error := some "Business profile not found for trigger update (mock)" }

/-- `businessService.updateTriggers`: read the stored profile; when one
is stored and its `businessID` equals the argument, overwrite the
stored profile with a copy whose `triggers` field is replaced and
return it with success; otherwise return the not-found error and leave
the store unchanged. -/
def updateTriggers (businessID : String) (triggers : Option Triggers)
    (store : Option BusinessData) :
    BusinessResponse × Option BusinessData :=
  match store with
  | none => (triggerUpdateFailure, none)
  | some d =>
      if d.businessID = some businessID then
        let updated := { d with triggers := triggers }
        ({ success := true, data := some updated, error := none },
          some updated)
      else (triggerUpdateFailure, some d)

/-! Example values used by the witnesses. -/

/-- All preference flags enabled. -/
def prefsAllOn : TriggerPreferences :=
  { hotSunny := true, rainy := true, coolPleasant := true
    weekendSpecials := true, paydaySales := true }

/-- A concrete business: UTC zone, open 08:00–20:00, empty ledger. -/
def bizEx : Business :=
  { businessId := 1, tzOffsetMinutes := 0
    openTimeLocal := 480, closeTimeLocal := 1200
    prefs := prefsAllOn, upcomingJobs := [] }

/-- A concrete rain candidate inside business hours. -/
def candEx : Candidate :=
  { triggerCategory := .rain, scheduledTimeUTC := 600, detectedEndUTC := 660 }

/-- A two-hour all-rain forecast at 10:00 and 11:00 UTC. -/
def ptsEx : List ForecastPoint :=
  [{ timeUTC := 600, temp := 20, precip := 1 },
   { timeUTC := 660, temp := 20, precip := 1 }]

/-- C3: on a non-empty sample list the Baseline Calculator returns
exactly `(mean samples, max (populationStdDev samples) 0.5)`, and the
returned sigma is at least `0.5`, for any population-standard-deviation
routine. -/
theorem baseline_mean_and_floored_sigma (pstdev : List ℚ → ℚ)
    (samples : List ℚ) (hne : samples ≠ []) :
    computeBaseline pstdev samples
      = some (listMean samples, max (pstdev samples) (0.5 : ℚ)) ∧
    ∀ μ σ, computeBaseline pstdev samples = some (μ, σ) → (0.5 : ℚ) ≤ σ := by
  have h : samples.isEmpty = false := by
    simpa [List.isEmpty_iff] using hne
  constructor
  · simp [computeBaseline, h]
  · intro μ σ heq
    simp only [computeBaseline, h, Bool.false_eq_true, if_false,
      Option.some.injEq, Prod.mk.injEq] at heq
    rw [← heq.2]
    exact le_max_right _ _

/-- Witness for C3 at the one-sample list `[28]` and the constantly-zero
standard-deviation routine. -/
theorem baseline_mean_and_floored_sigma_witness :
    computeBaseline (fun _ => 0) [(28 : ℚ)]
      = some (listMean [(28 : ℚ)], max ((fun _ : List ℚ => (0 : ℚ)) [(28 : ℚ)]) (0.5 : ℚ)) ∧
    (0.5 : ℚ) ≤ max ((fun _ : List ℚ => (0 : ℚ)) [(28 : ℚ)]) (0.5 : ℚ) := by
  have h := baseline_mean_and_floored_sigma (fun _ => 0) [(28 : ℚ)] (by simp)
  exact ⟨h.1, h.2 _ _ h.1⟩

/-- C6: the Time-Based Rule Evaluator's target is always 10:00 in local
wall-clock terms; it is 10:00 of the current local date when that
instant has not yet elapsed, it is 10:00 of the next local calendar day
when the same-day instant has already elapsed, and it is never an
already-past instant. -/
theorem timeTarget_ten_local_never_past (now offset : Int) :
    (computeTimeTarget now offset + offset) % 1440 = 600 ∧
    (now ≤ ((now + offset) / 1440) * 1440 + 600 - offset →
      computeTimeTarget now offset
        = ((now + offset) / 1440) * 1440 + 600 - offset) ∧
    (((now + offset) / 1440) * 1440 + 600 - offset < now →
      computeTimeTarget now offset
        = ((now + offset) / 1440) * 1440 + 600 - offset + 1440) ∧
    now ≤ computeTimeTarget now offset := by
  simp only [computeTimeTarget]
  refine ⟨?_, ?_, ?_, ?_⟩ <;> split <;> omega

/-- Witness for C6: the spec's example, a business at UTC+10 evaluated
at 00:05 UTC; 10:00 local has already elapsed, so the target rolls to
10:00 local of the next local day (minute 1440 UTC = 10:00 local on day
1). -/
theorem timeTarget_ten_local_never_past_witness :
    computeTimeTarget 5 600 = ((5 + 600) / 1440) * 1440 + 600 - 600 + 1440 :=
  (timeTarget_ten_local_never_past 5 600).2.2.1 (by decide)

/-- C7: when the external scheduler fails on a candidate the dispatcher
leaves the business record unchanged, and the ledger changes only by
appending the entry of a successfully scheduled candidate. -/
theorem dispatch_no_append_on_failure (sched : Candidate → Option Nat)
    (now horizon : Int) (b : Business) (c : Candidate) :
    (sched c = none → dispatch sched now horizon b c = b) ∧
    ((dispatch sched now horizon b c).upcomingJobs ≠ b.upcomingJobs →
      ∃ ref, sched c = some ref ∧
        (dispatch sched now horizon b c).upcomingJobs
          = b.upcomingJobs ++ [mkPendingJob c ref]) := by
  constructor
  · intro h
    unfold dispatch
    rw [h]
    split <;> rfl
  · intro hne
    unfold dispatch at hne ⊢
    by_cases hd : isDuplicate now horizon b.upcomingJobs c = true
    · rw [if_pos hd] at hne
      exact absurd rfl hne
    · rw [if_neg hd] at hne ⊢
      cases hs : sched c with
      | none => rw [hs] at hne; exact absurd rfl hne
      | some ref => exact ⟨ref, rfl, rfl⟩

/-- Witness for C7: a scheduler that always fails leaves the concrete
business unchanged. -/
theorem dispatch_no_append_on_failure_witness :
    dispatch (fun _ => none) 0 720 bizEx candEx = bizEx :=
  (dispatch_no_append_on_failure (fun _ => none) 0 720 bizEx candEx).1 rfl

/-- A concrete stored profile used by the `updateTriggers` witnesses. -/
def storedEx : BusinessData :=
  { businessName := "Cafe", location := "Yangon", businessType := "cafe"
    brandVoice := "warm", peakTime := "morning", products := "coffee"
    triggers := none, socialMedia := none
    userId := some "u1", businessID := some "b1", createdAt := some "t0" }

/-- A concrete replacement `triggers` object. -/
def trigEx : Triggers :=
  { weather := { hotSunny := true, rainy := true, coolPleasant := false }
    timeBased := { mondayCoffee := false, paydaySales := true, weekendSpecials := true }
    holidays := { localFestivals := false, internationalHolidays := false }
    manual := { boostNow := true } }

/-- Counterexample to C10 as stated: with no stored profile,
`updateTriggers` does return `success = false`, but its error string is
`"Business profile not found for trigger update (mock)"`, not the
claimed `"Business profile not found"`. -/
theorem updateTriggers_error_string_counterexample :
    (updateTriggers "b1" (some trigEx) none).1.success = false ∧
    (updateTriggers "b1" (some trigEx) none).1.error
      = some "Business profile not found for trigger update (mock)" ∧
    (updateTriggers "b1" (some trigEx) none).1.error
      ≠ some "Business profile not found" := by
  refine ⟨rfl, rfl, ?_⟩
  simp [updateTriggers, triggerUpdateFailure]

/-- C10 (amended): `updateTriggers` called with the stored profile's own
`businessID` replaces exactly the `triggers` field, stores and returns
the updated record with success; with no stored profile (or a
`businessID` that does not match) it returns `success = false` with
error `"Business profile not found for trigger update (mock)"` and
leaves the store unchanged. -/
theorem updateTriggers_frame (bid : String) (trig : Option Triggers)
    (store : Option BusinessData) :
    (store = none →
      updateTriggers bid trig store = (triggerUpdateFailure, none)) ∧
    (∀ d, store = some d → d.businessID ≠ some bid →
      updateTriggers bid trig store = (triggerUpdateFailure, some d)) ∧
    (∀ d, store = some d → d.businessID = some bid →
      updateTriggers bid trig store
        = ({ success := true, data := some { d with triggers := trig },
             error := none }, some { d with triggers := trig }) ∧
      ({ d with triggers := trig }).triggers = trig ∧
      ({ d with triggers := trig }).businessName = d.businessName ∧
      ({ d with triggers := trig }).location = d.location ∧
      ({ d with triggers := trig }).businessType = d.businessType ∧
      ({ d with triggers := trig }).brandVoice = d.brandVoice ∧
      ({ d with triggers := trig }).peakTime = d.peakTime ∧
      ({ d with triggers := trig }).products = d.products ∧
      ({ d with triggers := trig }).socialMedia = d.socialMedia ∧
      ({ d with triggers := trig }).userId = d.userId ∧
      ({ d with triggers := trig }).businessID = d.businessID ∧
      ({ d with triggers := trig }).createdAt = d.createdAt) := by
  refine ⟨?_, ?_, ?_⟩
  · intro h; subst h; rfl
  · intro d hd hne
    subst hd
    simp only [updateTriggers, if_neg hne]
  · intro d hd heq
    subst hd
    simp [updateTriggers, if_pos heq]

/-- Witness for the amended C10 at a concrete stored profile and
matching id: the stored record is updated in place. -/
theorem updateTriggers_frame_witness :
    updateTriggers "b1" (some trigEx) (some storedEx)
      = ({ success := true, data := some { storedEx with triggers := some trigEx },
           error := none }, some { storedEx with triggers := some trigEx }) ∧
    ({ storedEx with triggers := some trigEx }).businessName
      = storedEx.businessName :=
  ⟨((updateTriggers_frame "b1" (some trigEx) (some storedEx)).2.2 storedEx rfl rfl).1,
   ((updateTriggers_frame "b1" (some trigEx) (some storedEx)).2.2 storedEx rfl rfl).2.2.1⟩

/-! Dedup Ledger lemmas: the per-cycle ledger only grows by entries of
dispatched candidates, a recorded candidate is seen as a duplicate by
every later dispatch of the same category inside the horizon, and
duplicate (or failing) candidates leave the record untouched. -/

/-- The dispatcher only ever appends: the new ledger is the old one
followed by the (possibly empty) batch of entries of the dispatched
candidate. -/
theorem dispatch_jobs_append (sched : Candidate → Option Nat)
    (now horizon : Int) (b : Business) (c : Candidate) :
    ∃ tl, (dispatch sched now horizon b c).upcomingJobs
        = b.upcomingJobs ++ tl ∧
      ∀ j ∈ tl, ∃ ref, sched c = some ref ∧ j = mkPendingJob c ref := by
  unfold dispatch
  split
  · exact ⟨[], by simp⟩
  · cases hs : sched c with
    | none => exact ⟨[], by simp⟩
    | some ref =>
        refine ⟨[mkPendingJob c ref], rfl, ?_⟩
        intro j hj
        rw [List.mem_singleton] at hj
        exact ⟨ref, rfl, hj⟩

/-- A whole cycle only ever appends, and every appended entry is the
entry of some successfully scheduled candidate of the cycle. -/
theorem runCycle_jobs_append (sched : Candidate → Option Nat)
    (now horizon : Int) (cands : List Candidate) (b : Business) :
    ∃ tl, (runCycle sched now horizon cands b).upcomingJobs
        = b.upcomingJobs ++ tl ∧
      ∀ j ∈ tl, ∃ c ∈ cands, ∃ ref, sched c = some ref ∧
        j = mkPendingJob c ref := by
  induction cands generalizing b with
  | nil => exact ⟨[], by simp [runCycle]⟩
  | cons c0 rest ih =>
      obtain ⟨tl1, htl1, hmem1⟩ :=
        dispatch_jobs_append sched now horizon b c0
      obtain ⟨tl2, htl2, hmem2⟩ := ih (dispatch sched now horizon b c0)
      refine ⟨tl1 ++ tl2, ?_, ?_⟩
      · show (runCycle sched now horizon rest
            (dispatch sched now horizon b c0)).upcomingJobs = _
        rw [htl2, htl1, List.append_assoc]
      · intro j hj
        rcases List.mem_append.mp hj with h1 | h2
        · obtain ⟨ref, hs, hjeq⟩ := hmem1 j h1
          exact ⟨c0, List.mem_cons_self _ _, ref, hs, hjeq⟩
        · obtain ⟨c, hc, ref, hs, hjeq⟩ := hmem2 j h2
          exact ⟨c, List.mem_cons_of_mem _ hc, ref, hs, hjeq⟩

/-- The duplicate check only looks at the candidate's category. -/
theorem isDuplicate_congr (now horizon : Int) (jobs : List PendingJob)
    (c c' : Candidate) (h : c.triggerCategory = c'.triggerCategory) :
    isDuplicate now horizon jobs c = isDuplicate now horizon jobs c' := by
  simp [isDuplicate, h]

/-- A duplicate stays a duplicate when the ledger grows. -/
theorem isDuplicate_append (now horizon : Int) (jobs tl : List PendingJob)
    (c : Candidate) (h : isDuplicate now horizon jobs c = true) :
    isDuplicate now horizon (jobs ++ tl) c = true := by
  simp only [isDuplicate, List.any_append, Bool.or_eq_true]
  exact Or.inl h

/-- A duplicate candidate, or one the scheduler fails on, leaves the
business record untouched. -/
theorem dispatch_noop (sched : Candidate → Option Nat)
    (now horizon : Int) (b : Business) (c : Candidate)
    (h : isDuplicate now horizon b.upcomingJobs c = true ∨ sched c = none) :
    dispatch sched now horizon b c = b := by
  unfold dispatch
  rcases h with h | h
  · rw [if_pos h]
  · rw [h]
    split <;> rfl

/-- After one dispatch of an in-horizon candidate, that candidate is a
duplicate of the resulting ledger unless the scheduler failed on it. -/
theorem dispatch_establishes_dup (sched : Candidate → Option Nat)
    (now horizon : Int) (b : Business) (c : Candidate)
    (h1 : now ≤ c.scheduledTimeUTC)
    (h2 : c.scheduledTimeUTC ≤ now + horizon) :
    isDuplicate now horizon
        (dispatch sched now horizon b c).upcomingJobs c = true ∨
      sched c = none := by
  by_cases hd : isDuplicate now horizon b.upcomingJobs c = true
  · left
    rw [dispatch_noop sched now horizon b c (Or.inl hd)]
    exact hd
  · cases hs : sched c with
    | none => exact Or.inr rfl
    | some ref =>
        left
        unfold dispatch
        rw [if_neg hd, hs]
        simp only [isDuplicate, List.any_append, Bool.or_eq_true]
        right
        simp [mkPendingJob, h1, h2]

/-- After a full cycle over in-horizon candidates, every candidate of
the cycle is a duplicate of the resulting ledger unless the scheduler
failed on it. -/
theorem runCycle_establishes_dup (sched : Candidate → Option Nat)
    (now horizon : Int) (cands : List Candidate) (b : Business)
    (hhor : ∀ c ∈ cands,
      now ≤ c.scheduledTimeUTC ∧ c.scheduledTimeUTC ≤ now + horizon) :
    ∀ c ∈ cands,
      isDuplicate now horizon
          (runCycle sched now horizon cands b).upcomingJobs c = true ∨
        sched c = none := by
  induction cands generalizing b with
  | nil => intro c hc; cases hc
  | cons c0 rest ih =>
      intro c hc
      rcases List.mem_cons.mp hc with hc0 | hcr
      · subst hc0
        obtain ⟨hb1, hb2⟩ := hhor c (List.mem_cons_self _ _)
        rcases dispatch_establishes_dup sched now horizon b c hb1 hb2 with
          hd | hs
        · left
          obtain ⟨tl, htl, -⟩ := runCycle_jobs_append sched now horizon rest
            (dispatch sched now horizon b c)
          show isDuplicate now horizon (runCycle sched now horizon rest
            (dispatch sched now horizon b c)).upcomingJobs c = true
          rw [htl]
          exact isDuplicate_append now horizon _ tl c hd
        · exact Or.inr hs
      · exact ih (dispatch sched now horizon b c0)
          (fun c' hc' => hhor c' (List.mem_cons_of_mem _ hc')) c hcr

/-- A cycle all of whose candidates are duplicates of the starting
ledger (or fail to schedule) changes nothing. -/
theorem runCycle_noop (sched : Candidate → Option Nat)
    (now horizon : Int) (cands : List Candidate) (b : Business)
    (hall : ∀ c ∈ cands,
      isDuplicate now horizon b.upcomingJobs c = true ∨ sched c = none) :
    runCycle sched now horizon cands b = b := by
  induction cands with
  | nil => rfl
  | cons c0 rest ih =>
      have h0 : dispatch sched now horizon b c0 = b :=
        dispatch_noop sched now horizon b c0
          (hall c0 (List.mem_cons_self _ _))
      show runCycle sched now horizon rest (dispatch sched now horizon b c0) = b
      rw [h0]
      exact ih (fun c hc => hall c (List.mem_cons_of_mem _ hc))

/-- Whether the ledger already holds an entry of the category inside the
horizon (the Dedup Ledger check depends only on the category). -/
def dupCat (now horizon : Int) (cat : TriggerCategory)
    (jobs : List PendingJob) : Bool :=
  isDuplicate now horizon jobs
    { triggerCategory := cat, scheduledTimeUTC := 0, detectedEndUTC := 0 }

/-- Category counts add over ledger concatenation. -/
theorem countCat_append (cat : TriggerCategory) (jobs tl : List PendingJob) :
    countCat cat (jobs ++ tl) = countCat cat jobs + countCat cat tl := by
  simp [countCat]

/-- Invariant step: a cycle over in-horizon candidates starting from a
state that has gained at most one entry of the category — and none
unless the category already has an in-horizon entry — gains no further
entry of that category beyond one. -/
theorem countCat_runCycle_aux (sched : Candidate → Option Nat)
    (now horizon : Int) (cat : TriggerCategory) (cands : List Candidate) :
    ∀ b0 b' : Business,
      (∀ c ∈ cands,
        now ≤ c.scheduledTimeUTC ∧ c.scheduledTimeUTC ≤ now + horizon) →
      countCat cat b'.upcomingJobs ≤ countCat cat b0.upcomingJobs + 1 →
      (dupCat now horizon cat b'.upcomingJobs = false →
        countCat cat b'.upcomingJobs ≤ countCat cat b0.upcomingJobs) →
      countCat cat (runCycle sched now horizon cands b').upcomingJobs
        ≤ countCat cat b0.upcomingJobs + 1 := by
  induction cands with
  | nil => intro b0 b' _ h1 _; exact h1
  | cons c0 rest ih =>
      intro b0 b' hhor h1 h2
      have hhor0 := hhor c0 (List.mem_cons_self _ _)
      have hhorr := fun c hc => hhor c (List.mem_cons_of_mem _ hc)
      show countCat cat (runCycle sched now horizon rest
        (dispatch sched now horizon b' c0)).upcomingJobs ≤ _
      by_cases hd : isDuplicate now horizon b'.upcomingJobs c0 = true
      · rw [dispatch_noop sched now horizon b' c0 (Or.inl hd)]
        exact ih b0 b' hhorr h1 h2
      · cases hs : sched c0 with
        | none =>
            rw [dispatch_noop sched now horizon b' c0 (Or.inr hs)]
            exact ih b0 b' hhorr h1 h2
        | some ref =>
            have hjobs : (dispatch sched now horizon b' c0).upcomingJobs
                = b'.upcomingJobs ++ [mkPendingJob c0 ref] := by
              unfold dispatch
              rw [if_neg hd, hs]
            by_cases hcat : c0.triggerCategory = cat
            · -- the appended entry has the counted category
              have hdup0 : dupCat now horizon cat b'.upcomingJobs = false := by
                unfold dupCat
                rw [← isDuplicate_congr now horizon b'.upcomingJobs c0 _ hcat]
                exact Bool.not_eq_true _ ▸ (Bool.eq_false_iff.mpr hd)
              have hle : countCat cat b'.upcomingJobs
                  ≤ countCat cat b0.upcomingJobs := h2 hdup0
              refine ih b0 (dispatch sched now horizon b' c0) hhorr ?_ ?_
              · rw [hjobs, countCat_append]
                have : countCat cat [mkPendingJob c0 ref] ≤ 1 := by
                  simp only [countCat, List.filter_singleton]
                  cases decide ((mkPendingJob c0 ref).triggerCategory = cat) <;>
                    simp
                omega
              · intro hdup'
                exfalso
                have : dupCat now horizon cat
                    (dispatch sched now horizon b' c0).upcomingJobs = true := by
                  rw [hjobs]
                  simp only [dupCat, isDuplicate, List.any_append,
                    Bool.or_eq_true]
                  right
                  simp [mkPendingJob, hcat, hhor0.1, hhor0.2]
                rw [this] at hdup'
                cases hdup'
            · -- the appended entry has another category
              have hcount : countCat cat
                  (dispatch sched now horizon b' c0).upcomingJobs
                  = countCat cat b'.upcomingJobs := by
                rw [hjobs, countCat_append]
                have : countCat cat [mkPendingJob c0 ref] = 0 := by
                  simp [countCat, mkPendingJob, hcat]
                omega
              refine ih b0 (dispatch sched now horizon b' c0) hhorr ?_ ?_
              · rw [hcount]; exact h1
              · intro hdup'
                rw [hcount]
                apply h2
                by_contra hdup
                have hdup'' : dupCat now horizon cat b'.upcomingJobs = true :=
                  Bool.not_eq_false _ ▸ hdup
                have : dupCat now horizon cat
                    (dispatch sched now horizon b' c0).upcomingJobs = true := by
                  rw [hjobs]
                  exact isDuplicate_append now horizon _ _ _ hdup''
                rw [this] at hdup'
                cases hdup'

/-- One cycle over in-horizon candidates adds at most one ledger entry
per trigger category. -/
theorem countCat_runCycle_le (sched : Candidate → Option Nat)
    (now horizon : Int) (cat : TriggerCategory) (cands : List Candidate)
    (b : Business)
    (hhor : ∀ c ∈ cands,
      now ≤ c.scheduledTimeUTC ∧ c.scheduledTimeUTC ≤ now + horizon) :
    countCat cat (runCycle sched now horizon cands b).upcomingJobs
      ≤ countCat cat b.upcomingJobs + 1 :=
  countCat_runCycle_aux sched now horizon cat cands b b hhor
    (Nat.le_succ _) (fun _ => Nat.le_refl _)

/-- C1: for candidates whose scheduled times lie within the cycle's
detection horizon, a candidate whose category already has an in-horizon
pending entry is an idempotent no-op; running the same cycle a second
time on the unchanged inputs changes nothing; and the two runs together
leave at most one new SCHEDULED entry per trigger category. -/
theorem cycle_idempotent_and_deduplicated (sched : Candidate → Option Nat)
    (now horizon : Int) (cands : List Candidate) (b : Business)
    (hhor : ∀ c ∈ cands,
      now ≤ c.scheduledTimeUTC ∧ c.scheduledTimeUTC ≤ now + horizon) :
    (∀ c, isDuplicate now horizon b.upcomingJobs c = true →
      dispatch sched now horizon b c = b) ∧
    runCycle sched now horizon cands (runCycle sched now horizon cands b)
      = runCycle sched now horizon cands b ∧
    ∀ cat, countCat cat (runCycle sched now horizon cands
        (runCycle sched now horizon cands b)).upcomingJobs
      ≤ countCat cat b.upcomingJobs + 1 := by
  have hidem : runCycle sched now horizon cands
      (runCycle sched now horizon cands b)
      = runCycle sched now horizon cands b :=
    runCycle_noop sched now horizon cands _
      (runCycle_establishes_dup sched now horizon cands b hhor)
  refine ⟨?_, hidem, ?_⟩
  · intro c hc
    exact dispatch_noop sched now horizon b c (Or.inl hc)
  · intro cat
    rw [hidem]
    exact countCat_runCycle_le sched now horizon cat cands b hhor

/-- Witness for C1 at a concrete cycle containing the same rain
candidate twice: the double run equals the single run and the rain
category gains at most one entry. -/
theorem cycle_idempotent_and_deduplicated_witness :
    runCycle (fun _ => some 7) 0 720 [candEx, candEx]
        (runCycle (fun _ => some 7) 0 720 [candEx, candEx] bizEx)
      = runCycle (fun _ => some 7) 0 720 [candEx, candEx] bizEx ∧
    countCat TriggerCategory.rain (runCycle (fun _ => some 7) 0 720
        [candEx, candEx] (runCycle (fun _ => some 7) 0 720
        [candEx, candEx] bizEx)).upcomingJobs
      ≤ countCat TriggerCategory.rain bizEx.upcomingJobs + 1 := by
  have h := cycle_idempotent_and_deduplicated (fun _ => some 7) 0 720
    [candEx, candEx] bizEx (by decide)
  exact ⟨h.2.1, h.2.2 TriggerCategory.rain⟩

/-- Every candidate produced by the weather path passed the
Business-Hours Filter at both ends of its detection window, passed the
Trigger Preference Matcher, and carries a weather category. -/
theorem weatherCandidates_sound (μ σ : ℚ) (k : Nat)
    (pts : List ForecastPoint) (b : Business) (c : Candidate)
    (hc : c ∈ weatherCandidates μ σ k pts b) :
    inHoursB b c.scheduledTimeUTC = true ∧
    inHoursB b c.detectedEndUTC = true ∧
    prefFor c.triggerCategory b.prefs = true ∧
    (c.triggerCategory = TriggerCategory.hot ∨
      c.triggerCategory = TriggerCategory.cold ∨
      c.triggerCategory = TriggerCategory.rain) := by
  simp only [weatherCandidates, List.mem_filterMap] at hc
  obtain ⟨cat, hcat, hmatch⟩ := hc
  have hcat3 : cat = TriggerCategory.hot ∨ cat = TriggerCategory.cold ∨
      cat = TriggerCategory.rain := by simpa using hcat
  rcases hfw : findFirstWindow (wpred cat μ σ) k pts with _ | i <;>
    rw [hfw] at hmatch
  · exact Option.noConfusion hmatch
  · rcases hhead : ((pts.drop i).take k).head? with _ | p0 <;>
      rcases hlast : ((pts.drop i).take k).getLast? with _ | p1 <;>
      simp only [hhead, hlast] at hmatch
    · exact Option.noConfusion hmatch
    · exact Option.noConfusion hmatch
    · exact Option.noConfusion hmatch
    · by_cases hhours : (inHoursB b p0.timeUTC && inHoursB b p1.timeUTC) = true
      · rw [if_pos hhours] at hmatch
        by_cases hpref : prefFor cat b.prefs = true
        · rw [if_pos hpref] at hmatch
          have hpair : inHoursB b p0.timeUTC = true ∧
              inHoursB b p1.timeUTC = true := by simpa using hhours
          obtain ⟨h1, h2⟩ := hpair
          injection hmatch with hmc
          subst hmc
          refine ⟨h1, h2, hpref, ?_⟩
          rcases hcat3 with h | h | h <;> simp [h]
        · rw [if_neg hpref] at hmatch
          exact Option.noConfusion hmatch
      · rw [if_neg hhours] at hmatch
        exact Option.noConfusion hmatch

/-- C2: every job the weather path dispatches (each new ledger entry of
a weather cycle) has a `scheduledTimeUTC` — and a detection-window end —
that the wrap-aware Business-Hours Filter accepts; detection windows
whose start or end falls outside the business's local operating interval
are discarded and never dispatched. -/
theorem weather_jobs_within_business_hours (sched : Candidate → Option Nat)
    (now horizon : Int) (μ σ : ℚ) (k : Nat) (pts : List ForecastPoint)
    (b : Business) (j : PendingJob)
    (hj : j ∈ (runWeatherCycle sched now horizon μ σ k pts b).upcomingJobs) :
    j ∈ b.upcomingJobs ∨
      (inHoursB b j.scheduledTimeUTC = true ∧
        inHoursB b j.detectedEndUTC = true) := by
  obtain ⟨tl, htl, hmem⟩ :=
    runCycle_jobs_append sched now horizon (weatherCandidates μ σ k pts b) b
  rw [runWeatherCycle] at hj
  rw [htl] at hj
  rcases List.mem_append.mp hj with h | h
  · exact Or.inl h
  · obtain ⟨c, hc, ref, -, hjeq⟩ := hmem j h
    obtain ⟨h1, h2, -, -⟩ := weatherCandidates_sound μ σ k pts b c hc
    subst hjeq
    exact Or.inr ⟨h1, h2⟩

/-- C5: every job the weather path dispatches carries a category whose
preference flag the business has enabled; in particular when only
`rainy` is enabled (both `hotSunny` and `coolPleasant` are off), no hot
or cold detection ever reaches the dispatcher — every new entry is a
rain entry — and disabled detections are dropped without error. -/
theorem weather_jobs_respect_preferences (sched : Candidate → Option Nat)
    (now horizon : Int) (μ σ : ℚ) (k : Nat) (pts : List ForecastPoint)
    (b : Business) (j : PendingJob)
    (hj : j ∈ (runWeatherCycle sched now horizon μ σ k pts b).upcomingJobs) :
    j ∈ b.upcomingJobs ∨
      (prefFor j.triggerCategory b.prefs = true ∧
        (b.prefs.hotSunny = false → b.prefs.coolPleasant = false →
          j.triggerCategory = TriggerCategory.rain)) := by
  obtain ⟨tl, htl, hmem⟩ :=
    runCycle_jobs_append sched now horizon (weatherCandidates μ σ k pts b) b
  rw [runWeatherCycle] at hj
  rw [htl] at hj
  rcases List.mem_append.mp hj with h | h
  · exact Or.inl h
  · obtain ⟨c, hc, ref, -, hjeq⟩ := hmem j h
    obtain ⟨-, -, hpref, hcat3⟩ := weatherCandidates_sound μ σ k pts b c hc
    subst hjeq
    right
    refine ⟨hpref, ?_⟩
    intro hhs hcp
    rcases hcat3 with h' | h' | h'
    · exfalso
      rw [h'] at hpref
      simp [prefFor, hhs] at hpref
    · exfalso
      rw [h'] at hpref
      simp [prefFor, hcp] at hpref
    · rw [show (mkPendingJob c ref).triggerCategory = c.triggerCategory
        from rfl, h']

/-- Only the `rainy` preference enabled. -/
def prefsRainOnly : TriggerPreferences :=
  { hotSunny := false, rainy := true, coolPleasant := false
    weekendSpecials := false, paydaySales := false }

/-- The example business with only `rainy` enabled. -/
def bizRain : Business := { bizEx with prefs := prefsRainOnly }

/-- On the all-rain example forecast no hot window exists. -/
theorem findFirstWindow_hot_ptsEx :
    findFirstWindow (wpred .hot 20 1) 2 ptsEx = none := by
  norm_num [findFirstWindow, wpred, ptsEx]

/-- On the all-rain example forecast no cold window exists. -/
theorem findFirstWindow_cold_ptsEx :
    findFirstWindow (wpred .cold 20 1) 2 ptsEx = none := by
  norm_num [findFirstWindow, wpred, ptsEx]

/-- On the all-rain example forecast the earliest rain window starts at
position 0. -/
theorem findFirstWindow_rain_ptsEx :
    findFirstWindow (wpred .rain 20 1) 2 ptsEx = some 0 := by
  norm_num [findFirstWindow, wpred, ptsEx]

/-- The example weather cycle produces exactly the rain candidate for
the all-preferences business. -/
theorem weatherCandidates_ptsEx_bizEx :
    weatherCandidates 20 1 2 ptsEx bizEx = [candEx] := by
  simp only [weatherCandidates, List.filterMap_cons, List.filterMap_nil,
    findFirstWindow_hot_ptsEx, findFirstWindow_cold_ptsEx,
    findFirstWindow_rain_ptsEx]
  norm_num [ptsEx, bizEx, inHoursB, inHoursLocal, localMinuteOfDay,
    prefsAllOn, prefFor, candEx]

/-- The example weather cycle produces exactly the rain candidate for
the rain-only business as well. -/
theorem weatherCandidates_ptsEx_bizRain :
    weatherCandidates 20 1 2 ptsEx bizRain = [candEx] := by
  simp only [weatherCandidates, List.filterMap_cons, List.filterMap_nil,
    findFirstWindow_hot_ptsEx, findFirstWindow_cold_ptsEx,
    findFirstWindow_rain_ptsEx]
  norm_num [ptsEx, bizRain, bizEx, inHoursB, inHoursLocal, localMinuteOfDay,
    prefsRainOnly, prefFor, candEx]

/-- The example weather job dispatched for the all-preferences business. -/
theorem runWeatherCycle_ptsEx_bizEx :
    runWeatherCycle (fun _ => some 7) 0 720 20 1 2 ptsEx bizEx
      = { bizEx with upcomingJobs := [mkPendingJob candEx 7] } := by
  rw [runWeatherCycle, weatherCandidates_ptsEx_bizEx]
  decide

/-- The example weather job dispatched for the rain-only business. -/
theorem runWeatherCycle_ptsEx_bizRain :
    runWeatherCycle (fun _ => some 7) 0 720 20 1 2 ptsEx bizRain
      = { bizRain with upcomingJobs := [mkPendingJob candEx 7] } := by
  rw [runWeatherCycle, weatherCandidates_ptsEx_bizRain]
  decide

/-- Witness for C2 at the concrete rain cycle: the dispatched job's
scheduled time and window end pass the Business-Hours Filter. -/
theorem weather_jobs_within_business_hours_witness :
    mkPendingJob candEx 7 ∈ bizEx.upcomingJobs ∨
      (inHoursB bizEx (mkPendingJob candEx 7).scheduledTimeUTC = true ∧
        inHoursB bizEx (mkPendingJob candEx 7).detectedEndUTC = true) :=
  weather_jobs_within_business_hours (fun _ => some 7) 0 720 20 1 2 ptsEx
    bizEx (mkPendingJob candEx 7)
    (by rw [runWeatherCycle_ptsEx_bizEx]; simp)

/-- Witness for C5 at the concrete rain cycle of the rain-only
business: the dispatched job respects the preferences and is a rain
job. -/
theorem weather_jobs_respect_preferences_witness :
    mkPendingJob candEx 7 ∈ bizRain.upcomingJobs ∨
      (prefFor (mkPendingJob candEx 7).triggerCategory bizRain.prefs = true ∧
        (bizRain.prefs.hotSunny = false → bizRain.prefs.coolPleasant = false →
          (mkPendingJob candEx 7).triggerCategory = TriggerCategory.rain)) :=
  weather_jobs_respect_preferences (fun _ => some 7) 0 720 20 1 2 ptsEx
    bizRain (mkPendingJob candEx 7)
    (by rw [runWeatherCycle_ptsEx_bizRain]; simp)

/-- Shifting the window start by one steps into the tail. -/
theorem qualifiesWindow_succ (pred : ForecastPoint → Bool) (k : Nat)
    (p : ForecastPoint) (rest : List ForecastPoint) (j : Nat) :
    qualifiesWindow pred k (p :: rest) (j + 1) ↔
      qualifiesWindow pred k rest j := by
  unfold qualifiesWindow
  rw [List.drop_succ_cons]
  simp only [List.length_cons]
  constructor
  · rintro ⟨h1, h2⟩
    exact ⟨by omega, h2⟩
  · rintro ⟨h1, h2⟩
    exact ⟨by omega, h2⟩

/-- Qualification at position 0 is exactly the scanner's window test. -/
theorem qualifiesWindow_zero (pred : ForecastPoint → Bool) (k : Nat)
    (pts : List ForecastPoint) :
    qualifiesWindow pred k pts 0 ↔
      (decide (k ≤ pts.length) && (pts.take k).all pred) = true := by
  unfold qualifiesWindow
  rw [List.drop_zero]
  simp [List.all_eq_true]

/-- Soundness and minimality of the scanner: a returned start position
is a qualifying window and every earlier position fails. -/
theorem findFirstWindow_first_fit (pred : ForecastPoint → Bool) (k : Nat) :
    ∀ (pts : List ForecastPoint) (i : Nat),
      findFirstWindow pred k pts = some i →
      qualifiesWindow pred k pts i ∧
        ∀ j < i, ¬ qualifiesWindow pred k pts j := by
  intro pts
  induction pts with
  | nil =>
      intro i h
      simp only [findFirstWindow] at h
      split at h
      · injection h with h0
        subst h0
        rename_i hk
        refine ⟨⟨by simp [hk], ?_⟩, ?_⟩
        · intro p hp
          rw [hk] at hp
          simp at hp
        · intro j hj
          exact absurd hj (Nat.not_lt_zero j)
      · exact Option.noConfusion h
  | cons p rest ih =>
      intro i h
      simp only [findFirstWindow] at h
      by_cases hc :
        (decide (k ≤ (p :: rest).length) && ((p :: rest).take k).all pred)
          = true
      · rw [if_pos hc] at h
        injection h with h0
        subst h0
        refine ⟨(qualifiesWindow_zero pred k (p :: rest)).mpr hc, ?_⟩
        intro j hj
        exact absurd hj (Nat.not_lt_zero j)
      · rw [if_neg hc] at h
        rcases hrec : findFirstWindow pred k rest with _ | i'
        · rw [hrec] at h
          exact Option.noConfusion h
        · rw [hrec, Option.map_some'] at h
          injection h with h0
          subst h0
          obtain ⟨hq, hmin⟩ := ih i' hrec
          constructor
          · exact (qualifiesWindow_succ pred k p rest i').mpr hq
          · intro j hj
            cases j with
            | zero =>
                intro hq0
                exact hc ((qualifiesWindow_zero pred k (p :: rest)).mp hq0)
            | succ j' =>
                intro hqs
                exact hmin j' (by omega)
                  ((qualifiesWindow_succ pred k p rest j').mp hqs)

/-- Completeness of the scanner: when it returns nothing, no position
carries a qualifying window. -/
theorem findFirstWindow_complete (pred : ForecastPoint → Bool) (k : Nat) :
    ∀ pts : List ForecastPoint, findFirstWindow pred k pts = none →
      ∀ i, ¬ qualifiesWindow pred k pts i := by
  intro pts
  induction pts with
  | nil =>
      intro h i
      simp only [findFirstWindow] at h
      split at h
      · exact Option.noConfusion h
      · rename_i hk
        rintro ⟨h1, -⟩
        simp only [List.length_nil] at h1
        omega
  | cons p rest ih =>
      intro h i
      simp only [findFirstWindow] at h
      by_cases hc :
        (decide (k ≤ (p :: rest).length) && ((p :: rest).take k).all pred)
          = true
      · rw [if_pos hc] at h
        exact Option.noConfusion h
      · rw [if_neg hc] at h
        rcases hrec : findFirstWindow pred k rest with _ | i'
        · cases i with
          | zero =>
              intro hq0
              exact hc ((qualifiesWindow_zero pred k (p :: rest)).mp hq0)
          | succ j =>
              intro hqs
              exact ih hrec j ((qualifiesWindow_succ pred k p rest j).mp hqs)
        · rw [hrec, Option.map_some'] at h
          exact Option.noConfusion h

/-- C4: the scanner classifies a point hot exactly when its temperature
exceeds `μ + 1.5σ`, cold exactly when it is below `μ - 1.5σ`, and rain
exactly when its precipitation exceeds `0.2`; and for every
classification predicate the returned window is the earliest qualifying
`k`-point window (first-fit: every strictly earlier start fails), with
nothing returned only when no window qualifies. -/
theorem scanner_classification_first_fit (μ σ : ℚ) (k : Nat)
    (pts : List ForecastPoint) :
    (∀ p, wpred .hot μ σ p = true ↔ μ + 1.5 * σ < p.temp) ∧
    (∀ p, wpred .cold μ σ p = true ↔ p.temp < μ - 1.5 * σ) ∧
    (∀ p, wpred .rain μ σ p = true ↔ (0.2 : ℚ) < p.precip) ∧
    (∀ (pred : ForecastPoint → Bool) (i : Nat),
        findFirstWindow pred k pts = some i →
        qualifiesWindow pred k pts i ∧
          ∀ j < i, ¬ qualifiesWindow pred k pts j) ∧
    (∀ pred : ForecastPoint → Bool, findFirstWindow pred k pts = none →
        ∀ i, ¬ qualifiesWindow pred k pts i) := by
  refine ⟨?_, ?_, ?_,
    fun pred i h => findFirstWindow_first_fit pred k pts i h,
    fun pred h i => findFirstWindow_complete pred k pts h i⟩
  · intro p
    simp [wpred]
  · intro p
    simp [wpred]
  · intro p
    simp [wpred]

/-- Witness for C4: on the example forecast the scanner's rain result at
position 0 is a qualifying two-point window. -/
theorem scanner_classification_first_fit_witness :
    qualifiesWindow (wpred .rain 20 1) 2 ptsEx 0 :=
  ((scanner_classification_first_fit 20 1 2 ptsEx).2.2.2.1
    (wpred .rain 20 1) 0 findFirstWindow_rain_ptsEx).1

set_option maxRecDepth 4000 in
/-- C8: for every valid 24-hour time `"HH:mm"` (hour 0–23, minute
0–59), converting to 12-hour display form and back is the identity,
including midnight (`"00:mm"` via `"12:mm AM"`) and noon (`"12:mm"` via
`"12:mm PM"`). -/
theorem to24Hour_toDisplay_roundtrip :
    ∀ h, h < 24 → ∀ m, m < 60 →
      to24Hour (toDisplay (render24 h m)) = render24 h m := by decide

/-- Witness for C8 at midnight: `"00:30"` survives the round trip
through `"12:30 AM"`. -/
theorem to24Hour_toDisplay_roundtrip_witness :
    to24Hour (toDisplay (render24 0 30)) = render24 0 30 :=
  to24Hour_toDisplay_roundtrip 0 (by decide) 30 (by decide)

/-- A string extended with a final `'m'` is never the dashboard's
`"--"` placeholder. -/
theorem append_m_ne_dashdash (s : String) : s ++ "m" ≠ "--" := by
  intro h
  have hd := congrArg String.data h
  rw [String.data_append] at hd
  have h2 : (s.data ++ "m".data).getLast? = some 'm' := by
    rw [show "m".data = ['m'] from rfl]
    exact List.getLast?_concat _
  rw [hd] at h2
  exact absurd h2 (by decide)

/-- A string extended with a final `'h'` is never the dashboard's
`"--"` placeholder. -/
theorem append_h_ne_dashdash (s : String) : s ++ "h" ≠ "--" := by
  intro h
  have hd := congrArg String.data h
  rw [String.data_append] at hd
  have h2 : (s.data ++ "h".data).getLast? = some 'h' := by
    rw [show "h".data = ['h'] from rfl]
    exact List.getLast?_concat _
  rw [hd] at h2
  exact absurd h2 (by decide)

/-- C9: the dashboard's upcoming list shows at most 3 entries; the
future list is a permutation of exactly those entries whose
`scheduledTime` parses strictly after `now`, in ascending
scheduled-time order, and the display truncates it to 3 (showing all of
them when at most 3 exist); the "Next Post" delta is `"--"` exactly
when no future entry exists and is otherwise computed from the earliest
future entry, in minutes when under 60 and else in whole hours. -/
theorem dashboard_upcoming_selection (now : Int) (posts : List UpcomingPost) :
    (upcomingDisplay now posts).length ≤ 3 ∧
    (futurePosts now posts).Perm (posts.filter (isFuturePost now)) ∧
    List.Pairwise (fun a b => postKey a ≤ postKey b) (futurePosts now posts) ∧
    (∀ p ∈ upcomingDisplay now posts,
      p ∈ posts ∧ isFuturePost now p = true) ∧
    ((posts.filter (isFuturePost now)).length ≤ 3 →
      (upcomingDisplay now posts).Perm (posts.filter (isFuturePost now))) ∧
    (nextPostDelta now posts = "--" ↔
      posts.filter (isFuturePost now) = []) ∧
    (∀ p l, futurePosts now posts = p :: l →
      (∀ q ∈ posts.filter (isFuturePost now), postKey p ≤ postKey q) ∧
      nextPostDelta now posts =
        (if (postKey p - now) / 60000 < 60
          then toString ((postKey p - now) / 60000) ++ "m"
          else toString ((postKey p - now) / 3600000) ++ "h")) := by
  have htrans : ∀ a b c : UpcomingPost,
      decide (postKey a ≤ postKey b) = true →
      decide (postKey b ≤ postKey c) = true →
      decide (postKey a ≤ postKey c) = true := by
    intro a b c hab hbc
    simp only [decide_eq_true_eq] at hab hbc ⊢
    exact le_trans hab hbc
  have htotal : ∀ a b : UpcomingPost,
      (decide (postKey a ≤ postKey b) || decide (postKey b ≤ postKey a))
        = true := by
    intro a b
    simpa using le_total (postKey a) (postKey b)
  have hperm : (futurePosts now posts).Perm
      (posts.filter (isFuturePost now)) :=
    List.mergeSort_perm _ _
  have hsorted : List.Pairwise (fun a b => postKey a ≤ postKey b)
      (futurePosts now posts) := by
    have hs := List.sorted_mergeSort htrans htotal
      (posts.filter (isFuturePost now))
    exact hs.imp (fun h => by simpa using h)
  refine ⟨?_, hperm, hsorted, ?_, ?_, ?_, ?_⟩
  · exact List.length_take_le _ _
  · intro p hp
    have hp2 : p ∈ futurePosts now posts := List.mem_of_mem_take hp
    have hp3 : p ∈ posts.filter (isFuturePost now) := hperm.mem_iff.mp hp2
    exact List.mem_filter.mp hp3
  · intro hlen
    have hlen2 : (futurePosts now posts).length ≤ 3 := by
      rw [futurePosts, List.length_mergeSort]
      exact hlen
    rw [upcomingDisplay, List.take_of_length_le hlen2]
    exact hperm
  · constructor
    · intro hdelta
      rcases hfp : futurePosts now posts with _ | ⟨p, l⟩
      · have hp2 := hperm
        rw [hfp] at hp2
        exact (List.perm_nil.mp hp2.symm)
      · exfalso
        rw [nextPostDelta, hfp] at hdelta
        dsimp only at hdelta
        split at hdelta
        · exact append_m_ne_dashdash _ hdelta
        · exact append_h_ne_dashdash _ hdelta
    · intro hfil
      rw [nextPostDelta, futurePosts, hfil, List.mergeSort_nil]
  · intro p l hfp
    constructor
    · intro q hq
      have hq2 : q ∈ futurePosts now posts := hperm.mem_iff.mpr hq
      rw [hfp] at hq2
      have hs2 := hsorted
      rw [hfp, List.pairwise_cons] at hs2
      rcases List.mem_cons.mp hq2 with h | h
      · rw [h]
      · exact hs2.1 q h
    · rw [nextPostDelta, hfp]

/-- A future post at one minute past epoch. -/
def postW1 : UpcomingPost :=
  { scheduledTime := some 60000, triggerType := "hotWeather" }

/-- An entry with no scheduled time (filtered out). -/
def postW2 : UpcomingPost :=
  { scheduledTime := none, triggerType := "manual" }

/-- A future post at two hours past epoch. -/
def postW3 : UpcomingPost :=
  { scheduledTime := some 7200000, triggerType := "rain" }

/-- The example dashboard `upcomingPosts` value. -/
def postsW : List UpcomingPost := [postW1, postW2, postW3]

/-- Witness for C9 at the concrete post list evaluated at epoch: the
earliest future post bounds every future post, and the delta comes from
it. -/
theorem dashboard_upcoming_selection_witness :
    (∀ q ∈ postsW.filter (isFuturePost 0), postKey postW1 ≤ postKey q) ∧
    nextPostDelta 0 postsW =
      (if (postKey postW1 - 0) / 60000 < 60
        then toString ((postKey postW1 - 0) / 60000) ++ "m"
        else toString ((postKey postW1 - 0) / 3600000) ++ "h") :=
  (dashboard_upcoming_selection 0 postsW).2.2.2.2.2.2 postW1 [postW3]
    (by
      rw [futurePosts,
        show postsW.filter (isFuturePost 0) = [postW1, postW3] from rfl]
      exact List.mergeSort_of_sorted (by decide))
